import Mathlib

/-
Verification of the scrap-data arXiv crawler (Lab01) against its
natural-language specification.

Shallow embedding conventions:
  * bytes are `Nat` values (0..255); byte strings are `List Nat`;
  * the filesystem is a partial map `String → Option (List Nat)`;
  * the network (arXiv metadata endpoint, e-print endpoint, API download,
    tar library) is an explicit `World` record of oracles;
  * Python functions that may raise are embedded with `Except`.

Source of truth: src/Lab01/src/utils.py, src/Lab01/src/scrap/arxiv_tools.py,
src/Lab01/src/scrap/pipeline.py, src/Lab01/src/main.py.
-/

/-! ### utils.to_yymm_id (src/Lab01/src/utils.py lines 8-15)

`to_yymm_id` uses `re.search(r"v(\d+)$", arxiv_id)` to detect a trailing
version suffix `v<digits>`, removes it, replaces `.` with `-` in the rest,
and re-appends the suffix ("Giữ nguyên phần 'vX' nếu có" = keep the vX part
if present). -/

/-- The character replacement `.replace(".", "-")` applied pointwise. -/
def dotDash (c : Char) : Char := if c = '.' then '-' else c

/-- Model of `re.search(r"v(\d+)$", s)`: splits `s` into `(base, suffix)`
where `suffix` is a trailing `'v'` followed by a nonempty digit run when one
exists, and is `[]` otherwise.  The regex match, when it exists, is exactly
the `'v'` preceding the maximal trailing digit run. -/
def splitVer (s : List Char) : List Char × List Char :=
  let rev := s.reverse
  let ds := rev.takeWhile Char.isDigit
  let rest := rev.dropWhile Char.isDigit
  match ds, rest with
  | [], _ => (s, [])
  | _ :: _, c :: r => if c = 'v' then (r.reverse, 'v' :: ds.reverse) else (s, [])
  | _ :: _, [] => (s, [])

/-- Core of `to_yymm_id` on character lists: strip the version suffix,
replace dots by dashes in the base, re-append the suffix. -/
def to_yymm_core (s : List Char) : List Char :=
  let p := splitVer s
  p.1.map dotDash ++ p.2

/-- `utils.to_yymm_id`: `'1706.03762' -> '1706-03762'`, keeping any trailing
`vX` suffix unchanged. -/
def to_yymm_id (s : String) : String :=
  (to_yymm_core s.toList).asString

lemma splitVer_append (s : List Char) :
    (splitVer s).1 ++ (splitVer s).2 = s := by
  unfold splitVer
  simp only []
  rcases hds : s.reverse.takeWhile Char.isDigit with _ | ⟨d, ds⟩
  · simp
  · rcases hrest : s.reverse.dropWhile Char.isDigit with _ | ⟨c, r⟩
    · simp
    · by_cases hc : c = 'v'
      · subst hc
        simp only [if_pos rfl]
        have : (d :: ds) ++ ('v' :: r) = s.reverse := by
          rw [← hds, ← hrest, List.takeWhile_append_dropWhile]
        have h2 : ('v' :: r).reverse ++ (d :: ds).reverse = s := by
          rw [← List.reverse_append, this, List.reverse_reverse]
        simpa using h2
      · simp [hc]

lemma splitVer_suffix_digits (s : List Char) :
    ∀ c ∈ (splitVer s).2, c = 'v' ∨ c.isDigit := by
  unfold splitVer
  simp only []
  rcases hds : s.reverse.takeWhile Char.isDigit with _ | ⟨d, ds⟩
  · simp
  · rcases hrest : s.reverse.dropWhile Char.isDigit with _ | ⟨c, r⟩
    · simp
    · by_cases hc : c = 'v'
      · subst hc
        simp only [if_pos rfl]
        intro x hx
        rcases List.mem_cons.mp hx with h | h
        · exact Or.inl h
        · right
          have hx' : x ∈ s.reverse.takeWhile Char.isDigit := by
            rw [hds]
            exact List.mem_reverse.mp h
          exact List.mem_takeWhile_imp hx'
      · simp [hc]

lemma map_self_of_fixed {α : Type} (f : α → α) :
    ∀ l : List α, (∀ c ∈ l, f c = c) → l.map f = l
  | [], _ => rfl
  | c :: l, h => by
    have hc : f c = c := h c (List.mem_cons_self c l)
    have hl : l.map f = l :=
      map_self_of_fixed f l (fun x hx => h x (List.mem_cons_of_mem c hx))
    simp [hc, hl]

lemma dotDash_digit {c : Char} (h : c.isDigit) : dotDash c = c := by
  unfold dotDash
  have : c ≠ '.' := by
    intro he; subst he; simp [Char.isDigit] at h
  simp [this]

/-- `to_yymm_core` is extensionally just dot-to-dash replacement: the
stripped version suffix is re-appended verbatim and contains no dots. -/
lemma to_yymm_core_eq_map (s : List Char) :
    to_yymm_core s = s.map dotDash := by
  unfold to_yymm_core
  have hsuf : (splitVer s).2.map dotDash = (splitVer s).2 := by
    apply map_self_of_fixed
    intro c hc
    rcases splitVer_suffix_digits s c hc with h | h
    · subst h; rfl
    · exact dotDash_digit h
  calc (splitVer s).1.map dotDash ++ (splitVer s).2
      = (splitVer s).1.map dotDash ++ (splitVer s).2.map dotDash := by rw [hsuf]
    _ = ((splitVer s).1 ++ (splitVer s).2).map dotDash := by rw [List.map_append]
    _ = s.map dotDash := by rw [splitVer_append]

lemma dotDash_idem (c : Char) : dotDash (dotDash c) = dotDash c := by
  unfold dotDash
  by_cases h : c = '.' <;> simp [h]

lemma toList_append3 (s v : String) :
    (s ++ "v" ++ v).toList = s.toList ++ 'v' :: v.toList := by
  show (s ++ "v" ++ v).data = s.data ++ 'v' :: v.data
  rw [String.data_append, String.data_append]
  have hb : "v".data = ['v'] := rfl
  rw [hb, List.append_assoc]
  rfl

/-- C3 counterexample: `to_yymm_id` does NOT map an identifier and its
versioned form to the same key — the version suffix is re-appended, not
stripped: `to_yymm_id "1706.03762v2" = "1706-03762v2"` while
`to_yymm_id "1706.03762" = "1706-03762"`. -/
theorem C3_counterexample :
    to_yymm_id ("1706.03762" ++ "v" ++ "2") ≠ to_yymm_id "1706.03762" ∧
    to_yymm_id ("1706.03762" ++ "v" ++ "2") = "1706-03762v2" ∧
    to_yymm_id "1706.03762" = "1706-03762" := by
  refine ⟨?_, ?_, ?_⟩ <;> decide

/-- C3 amended: `to_yymm_id` is deterministic (it is a pure function) and
idempotent, but it preserves a trailing version suffix rather than
stripping it: `to_yymm_id (id ++ "v" ++ v) = to_yymm_id id ++ "v" ++ v`
for every digit string `v`, so the two keys differ whenever `v` is
nonempty. -/
theorem C3_to_yymm_id_idempotent_suffix_preserving (s v : String)
    (hv : ∀ c ∈ v.toList, c.isDigit) :
    to_yymm_id (to_yymm_id s) = to_yymm_id s ∧
    to_yymm_id (s ++ "v" ++ v) = to_yymm_id s ++ "v" ++ v := by
  have hcore : ∀ l : List Char, to_yymm_core (to_yymm_core l) = to_yymm_core l := by
    intro l
    rw [to_yymm_core_eq_map, to_yymm_core_eq_map, List.map_map]
    have h : (dotDash ∘ dotDash) = dotDash := funext dotDash_idem
    rw [h]
  constructor
  · show (to_yymm_core (to_yymm_core s.toList).asString.toList).asString
        = (to_yymm_core s.toList).asString
    have h1 : (to_yymm_core s.toList).asString.toList = to_yymm_core s.toList := rfl
    rw [h1, hcore]
  · show (to_yymm_core (s ++ "v" ++ v).toList).asString
        = (to_yymm_core s.toList).asString ++ "v" ++ v
    have h2 : to_yymm_core (s ++ "v" ++ v).toList
        = to_yymm_core s.toList ++ 'v' :: v.toList := by
      rw [toList_append3, to_yymm_core_eq_map, to_yymm_core_eq_map, List.map_append]
      have hv' : List.map dotDash ('v' :: v.toList) = 'v' :: v.toList := by
        apply map_self_of_fixed
        intro c hc
        rcases List.mem_cons.mp hc with h | h
        · subst h; rfl
        · exact dotDash_digit (hv c h)
      rw [hv']
    rw [h2]
    show List.asString (to_yymm_core s.toList ++ 'v' :: v.toList)
        = (to_yymm_core s.toList).asString ++ "v" ++ v
    apply String.ext
    show to_yymm_core s.toList ++ 'v' :: v.toList
        = ((to_yymm_core s.toList).asString ++ "v" ++ v).data
    rw [String.data_append, String.data_append]
    have hb : "v".data = ['v'] := rfl
    have ha : (to_yymm_core s.toList).asString.data = to_yymm_core s.toList := rfl
    rw [hb, ha, List.append_assoc]
    rfl

/-- Witness for C3's amended theorem at `id = "1706.03762"`, `v = "2"`. -/
theorem C3_witness :
    to_yymm_id (to_yymm_id "1706.03762") = to_yymm_id "1706.03762" ∧
    to_yymm_id ("1706.03762" ++ "v" ++ "2") = to_yymm_id "1706.03762" ++ "v" ++ "2" :=
  C3_to_yymm_id_idempotent_suffix_preserving "1706.03762" "2" (by decide)

/-! ### Bytes, filesystem, and oracles for the network and the tar library

Downloaded files are byte lists; the filesystem is a partial map from path
strings to byte lists.  The tar library (`tarfile.open(..., "r:*")` +
`getmembers()`) is external to the repository and is modelled as an oracle
`tarOpens : List Nat → Bool` saying whether a byte blob opens and enumerates
as a (possibly compressed) tar archive. -/

/-- ASCII lowercasing of a byte, as in Python `bytes.lower()`. -/
def lowerByte (b : Nat) : Nat := if 65 ≤ b ∧ b ≤ 90 then b + 32 else b

/-- The bytes of `b"<html"`. -/
def htmlMarker1 : List Nat := [60, 104, 116, 109, 108]

/-- The bytes of `b"<!doctype html"`. -/
def htmlMarker2 : List Nat :=
  [60, 33, 100, 111, 99, 116, 121, 112, 101, 32, 104, 116, 109, 108]

def bytesPrefixOf : List Nat → List Nat → Bool
  | [], _ => true
  | _ :: _, [] => false
  | a :: as, b :: bs => a = b && bytesPrefixOf as bs

/-- `needle in hay` on byte strings (Python `in` for `bytes`). -/
def containsSeq (needle : List Nat) : List Nat → Bool
  | [] => bytesPrefixOf needle []
  | h :: rest => bytesPrefixOf needle (h :: rest) || containsSeq needle rest

/-- The HTML-error-page test applied by `is_tar_ok` to the first 1024 bytes:
lowercase them and search for either marker. -/
def hasHtmlHead (bytes : List Nat) : Bool :=
  let head := (bytes.take 1024).map lowerByte
  containsSeq htmlMarker1 head || containsSeq htmlMarker2 head

/-- The filesystem: a partial map from paths to byte contents. -/
def FS : Type := String → Option (List Nat)

def fsEmpty : FS := fun _ => none

def fsWrite (fs : FS) (p : String) (b : List Nat) : FS :=
  fun q => if q = p then some b else fs q

def fsRemove (fs : FS) (p : String) : FS :=
  fun q => if q = p then none else fs q

/-- `arxiv_tools.is_tar_ok` (src/Lab01/src/scrap/arxiv_tools.py lines 64-80):
false if the file does not exist; false if the lowercased first 1024 bytes
contain `<html` or `<!doctype html`; otherwise the tar library's verdict,
with library errors (TarError/OSError/EOFError, i.e. `tarOpens = false`)
mapped to false.  Total and Bool-valued: no exception escapes. -/
def is_tar_ok (tarOpens : List Nat → Bool) (fs : FS) (path : String) : Bool :=
  match fs path with
  | none => false
  | some bytes => if hasHtmlHead bytes then false else tarOpens bytes

/-- C5: `is_tar_ok` is a total boolean classifier (no exception escapes, by
type): false on a missing file; false whenever the lowercased first 1024
bytes contain an HTML marker, regardless of the rest of the file (the HTML
test only reads the first 1024 bytes — last conjunct); false whenever the
tar library cannot open and enumerate the blob (`tarOpens = false`, which
covers zero-length and truncated files); true on any blob without an HTML
head that the tar library accepts. -/
theorem C5_is_tar_ok_classifier (tarOpens : List Nat → Bool) (fs : FS) (path : String) :
    (fs path = none → is_tar_ok tarOpens fs path = false) ∧
    (∀ bytes, fs path = some bytes → hasHtmlHead bytes = true →
      is_tar_ok tarOpens fs path = false) ∧
    (∀ bytes, fs path = some bytes → tarOpens bytes = false →
      is_tar_ok tarOpens fs path = false) ∧
    (∀ bytes, fs path = some bytes → hasHtmlHead bytes = false →
      tarOpens bytes = true → is_tar_ok tarOpens fs path = true) ∧
    (∀ b₁ b₂ : List Nat, b₁.take 1024 = b₂.take 1024 →
      hasHtmlHead b₁ = hasHtmlHead b₂) := by
  refine ⟨?_, ?_, ?_, ?_, ?_⟩
  · intro h; simp [is_tar_ok, h]
  · intro bytes h hm; simp [is_tar_ok, h, hm]
  · intro bytes h ht
    rcases hh : hasHtmlHead bytes <;> simp [is_tar_ok, h, hh, ht]
  · intro bytes h hm ht; simp [is_tar_ok, h, hm, ht]
  · intro b₁ b₂ he
    simp only [hasHtmlHead]
    rw [he]

/-- Witness for C5 at a file whose content is the uppercase bytes of
`<HTML`: the validator rejects it (case-insensitive HTML detection), even
though the tar oracle would accept anything. -/
theorem C5_witness :
    is_tar_ok (fun _ => true) (fsWrite fsEmpty "f" [60, 72, 84, 77, 76]) "f" = false :=
  (C5_is_tar_ok_classifier (fun _ => true)
      (fsWrite fsEmpty "f" [60, 72, 84, 77, 76]) "f").2.1
    [60, 72, 84, 77, 76] (by decide) (by decide)

/-! ### The network world and the Source Fetcher

`try_download_source` is defined twice in src/Lab01/src/scrap/arxiv_tools.py;
the second definition (lines 229-282) shadows the first and is the one the
pipeline imports.  It resolves the identifier through `get_result_by_id`
(the metadata API) first; when the record has a `pdf_url` it downloads via
the API library, falling back to `_download_via_eprint` only when that
raises or when `pdf_url` is absent; the result is then checked with
`is_tar_ok` and deleted when invalid. -/

/-- The slice of an `arxiv.Result` the fetcher inspects. -/
structure ArxivResult where
  pdf_url : Option String

/-- Possible outcomes of the streamed `requests.get` on the e-print URL. -/
inductive EprintResp where
  /-- the request itself raised; nothing was written to disk -/
  | netErr : EprintResp
  /-- an exception mid-stream, after the listed chunks were written -/
  | midErr : List (List Nat) → EprintResp
  /-- a complete response: HTTP status code and body chunks -/
  | resp : Nat → List (List Nat) → EprintResp

/-- Oracles for everything outside the repository: the metadata API
(`get_result_by_id`, which may raise), the e-print endpoint, the API
library's `download_source`, and the tar library. -/
structure World where
  meta : String → Except Unit ArxivResult
  eprint : String → EprintResp
  apiDownload : String → Except Unit (List Nat)
  tarOpens : List Nat → Bool

/-- The `first_bytes` buffer of `_download_via_eprint`: the first
`min(len(chunk), 1024)` bytes of the first nonempty chunk. -/
def firstChunkBytes : List (List Nat) → List Nat
  | [] => []
  | c :: rest => if c = [] then firstChunkBytes rest else c.take 1024

/-- `arxiv_tools._download_via_eprint` (lines 137-191): stream the e-print
URL to `out_path`; fail on non-200 status (nothing written), on an empty
body (file removed), or on an HTML head in the first chunk (file removed);
a mid-stream exception leaves the partial file behind (the caller removes
it).  Returns the updated filesystem and the success flag. -/
def download_via_eprint (w : World) (fs : FS) (idv out_path : String) : FS × Bool :=
  match w.eprint idv with
  | .netErr => (fs, false)
  | .midErr chunks => (fsWrite fs out_path chunks.flatten, false)
  | .resp status chunks =>
    if status ≠ 200 then (fs, false)
    else
      let body := chunks.flatten
      let fs1 := fsWrite fs out_path body
      if body = [] then (fsRemove fs1 out_path, false)
      else
        let fb := (firstChunkBytes chunks).map lowerByte
        if containsSeq htmlMarker1 fb || containsSeq htmlMarker2 fb then
          (fsRemove fs1 out_path, false)
        else (fs1, true)

/-- The final validation step shared by all download paths (lines 262-274):
keep the file and return true when `is_tar_ok` accepts it, otherwise delete
it and return false. -/
def checkTarOrDelete (w : World) (fs : FS) (tgz : String) : FS × Bool :=
  if is_tar_ok w.tarOpens fs tgz then (fs, true)
  else (fsRemove fs tgz, false)

/-- `arxiv_tools.try_download_source`, the effective (second) definition at
lines 229-282: resolve via the metadata API first; with a `pdf_url`, try the
API library download and fall back to e-print on a library exception;
without a `pdf_url`, go straight to e-print; validate the result with
`is_tar_ok`, deleting invalid or partial files on every failure path.
`tgz` stands for `os.path.join(save_dir, filename)`. -/
def try_download_source (w : World) (fs : FS) (idv tgz : String) : FS × Bool :=
  match w.meta idv with
  | .error _ => (fsRemove fs tgz, false)
  | .ok res =>
    match res.pdf_url with
    | some _ =>
      match w.apiDownload idv with
      | .ok bytes => checkTarOrDelete w (fsWrite fs tgz bytes) tgz
      | .error _ =>
        let p := download_via_eprint w fs idv tgz
        if p.2 then checkTarOrDelete w p.1 tgz
        else (fsRemove p.1 tgz, false)
    | none =>
      let p := download_via_eprint w fs idv tgz
      if p.2 then checkTarOrDelete w p.1 tgz
      else (fsRemove p.1 tgz, false)

/-- The Source Fetcher algorithm as the spec states it (§4.4), written from
the spec's words for comparison with `try_download_source`: step 1 attempts
the direct e-print download, steps 2-3 classify and validate it and return
success when valid, and only step 4 falls back to the metadata-API-mediated
download, validated the same way, removing any partial file on failure. -/
def fetchPerSpec (w : World) (fs : FS) (idv tgz : String) : FS × Bool :=
  let p := download_via_eprint w fs idv tgz
  if p.2 && is_tar_ok w.tarOpens p.1 tgz then (p.1, true)
  else
    let fs1 := fsRemove p.1 tgz
    match w.meta idv with
    | .error _ => (fs1, false)
    | .ok _ =>
      match w.apiDownload idv with
      | .error _ => (fs1, false)
      | .ok bytes => checkTarOrDelete w (fsWrite fs1 tgz bytes) tgz

/-- A small blob that is not an HTML page (gzip-like magic bytes). -/
def validTarBytes : List Nat := [31, 139, 8, 0, 1]

/-- The bytes of `<html>`. -/
def htmlPageBytes : List Nat := [60, 104, 116, 109, 108, 62]

/-- A world where metadata resolution always raises, while the e-print
endpoint serves a valid archive that the tar library accepts. -/
def wMetaErr : World :=
  ⟨fun _ => .error (), fun _ => .resp 200 [validTarBytes],
   fun _ => .error (), fun b => b == validTarBytes⟩

/-- A world where the e-print endpoint always answers with an HTML error
page while the metadata API resolves (with a `pdf_url`) and its download
yields a valid archive. -/
def wApiOk : World :=
  ⟨fun _ => .ok ⟨some "u"⟩, fun _ => .resp 200 [htmlPageBytes],
   fun _ => .ok validTarBytes, fun b => b == validTarBytes⟩

/-- A world where the record resolves without a `pdf_url` and the e-print
endpoint serves a valid archive. -/
def wNoPdf : World :=
  ⟨fun _ => .ok ⟨none⟩, fun _ => .resp 200 [validTarBytes],
   fun _ => .error (), fun b => b == validTarBytes⟩

/-- C1 counterexample: in a world where the direct e-print endpoint serves a
valid archive but metadata resolution raises, the spec's algorithm (e-print
first) succeeds, yet the code's `try_download_source` returns false — so the
code does not attempt the e-print download first; it consults the metadata
API first. -/
theorem C1_counterexample :
    (try_download_source wMetaErr fsEmpty "2101.00001v1" "tmp/a.tar.gz").2 = false ∧
    (fetchPerSpec wMetaErr fsEmpty "2101.00001v1" "tmp/a.tar.gz").2 = true := by
  exact ⟨by decide, by decide⟩

/-- C1 amended: the effective fetcher resolves through the metadata API
FIRST — if that resolution raises, fetch fails no matter what the e-print
endpoint would return — and uses the direct e-print endpoint only as the
fallback when the record lacks a `pdf_url` (or the API download raises).
In the spec's scenario (e-print always an HTML error page, API path serving
a valid archive) fetch still returns success with the final file validated,
via the API path; the e-print download alone fails on that HTML page; and
with no `pdf_url` the e-print fallback alone yields success. -/
theorem C1_api_first_eprint_fallback :
    (∀ (w : World) (fs : FS) (idv tgz : String),
      w.meta idv = .error () → (try_download_source w fs idv tgz).2 = false) ∧
    (try_download_source wApiOk fsEmpty "2101.00001v1" "tmp/a.tar.gz").2 = true ∧
    is_tar_ok wApiOk.tarOpens
      (try_download_source wApiOk fsEmpty "2101.00001v1" "tmp/a.tar.gz").1
      "tmp/a.tar.gz" = true ∧
    (download_via_eprint wApiOk fsEmpty "2101.00001v1" "tmp/a.tar.gz").2 = false ∧
    (try_download_source wNoPdf fsEmpty "2101.00001v1" "tmp/a.tar.gz").2 = true := by
  refine ⟨?_, by decide, by decide, by decide, by decide⟩
  intro w fs idv tgz h
  simp [try_download_source, h]

/-- Witness for C1's amended theorem: a concrete world whose metadata
resolution raises, starting from a filesystem that already holds a stale
file at the destination. -/
theorem C1_witness :
    (try_download_source wMetaErr
      (fsWrite fsEmpty "tmp/b.tar.gz" validTarBytes) "x" "tmp/b.tar.gz").2 = false :=
  C1_api_first_eprint_fallback.1 wMetaErr
    (fsWrite fsEmpty "tmp/b.tar.gz" validTarBytes) "x" "tmp/b.tar.gz" rfl

lemma checkTarOrDelete_spec (w : World) (fs : FS) (tgz : String) :
    ((checkTarOrDelete w fs tgz).2 = true →
      is_tar_ok w.tarOpens (checkTarOrDelete w fs tgz).1 tgz = true) ∧
    ((checkTarOrDelete w fs tgz).2 = false → (checkTarOrDelete w fs tgz).1 tgz = none) := by
  unfold checkTarOrDelete
  rcases h : is_tar_ok w.tarOpens fs tgz
  · simp [h, fsRemove]
  · simp [h]

/-- C6: the Source Fetcher contract. `try_download_source` returns a
boolean; when it returns true the destination file passes the Archive
Validator (`is_tar_ok`), and when it returns false no file at all is left
at the destination — every failure path deletes partial and invalid
downloads. -/
theorem C6_fetch_contract (w : World) (fs : FS) (idv tgz : String) :
    ((try_download_source w fs idv tgz).2 = true →
      is_tar_ok w.tarOpens (try_download_source w fs idv tgz).1 tgz = true) ∧
    ((try_download_source w fs idv tgz).2 = false →
      (try_download_source w fs idv tgz).1 tgz = none) := by
  unfold try_download_source
  rcases hm : w.meta idv with _ | res
  · simp [fsRemove]
  · simp only [hm]
    rcases hp : res.pdf_url with _ | u
    · simp only [hp]
      rcases hdv : (download_via_eprint w fs idv tgz).2
      · simp [hdv, fsRemove]
      · simpa [hdv] using
          checkTarOrDelete_spec w (download_via_eprint w fs idv tgz).1 tgz
    · simp only [hp]
      rcases ha : w.apiDownload idv with _ | bytes
      · simp only [ha]
        rcases hdv : (download_via_eprint w fs idv tgz).2
        · simp [hdv, fsRemove]
        · simpa [hdv] using
            checkTarOrDelete_spec w (download_via_eprint w fs idv tgz).1 tgz
      · simp only [ha]
        exact checkTarOrDelete_spec w (fsWrite fs tgz bytes) tgz

/-- Witness for C6 in the HTML-page/valid-API world: fetch succeeds and the
resulting file passes the validator. -/
theorem C6_witness :
    is_tar_ok wApiOk.tarOpens
      (try_download_source wApiOk fsEmpty "2101.00002v1" "tmp/c.tar.gz").1
      "tmp/c.tar.gz" = true :=
  (C6_fetch_contract wApiOk fsEmpty "2101.00002v1" "tmp/c.tar.gz").1 (by decide)

/-! ### Version discovery (`arxiv_tools.list_all_versions`, lines 50-60)

The Python loop `while True: try get_result_by_id(f"{base_id}v{v}") ...` is
unbounded; the embedding adds explicit fuel, and every theorem supplies fuel
beyond the first failing probe, where the loop's value is reached. -/

/-- `f"{base_id}v{v}"`. -/
def verId (base : String) (v : Nat) : String := base ++ "v" ++ toString v

/-- Whether `get_result_by_id(base ++ "v" ++ v)` resolves without raising. -/
def probeOk (meta : String → Except Unit ArxivResult) (base : String) (v : Nat) : Bool :=
  match meta (verId base v) with
  | .ok _ => true
  | .error _ => false

/-- The probing loop of `list_all_versions`: append `v` and continue while
the probe succeeds, stop at the first failure. -/
def scanVersions (meta : String → Except Unit ArxivResult) (base : String) :
    Nat → Nat → List Nat
  | 0, _ => []
  | fuel + 1, v =>
    if probeOk meta base v then v :: scanVersions meta base fuel (v + 1)
    else []

/-- `arxiv_tools.list_all_versions`: `[1]` immediately when `v1_only`;
otherwise probe 1, 2, 3, … and return the successes before the first
failure, or `[1]` when that list is empty (`return versions or [1]`). -/
def list_all_versions (meta : String → Except Unit ArxivResult) (fuel : Nat)
    (base : String) (v1_only : Bool) : List Nat :=
  if v1_only then [1]
  else
    let versions := scanVersions meta base fuel 1
    if versions = [] then [1] else versions

/-- `[start, start+1, …, start+k-1]`. -/
def consecFrom : Nat → Nat → List Nat
  | _, 0 => []
  | start, k + 1 => start :: consecFrom (start + 1) k

lemma scanVersions_spec (meta : String → Except Unit ArxivResult) (base : String) :
    ∀ (k fuel start : Nat), k < fuel →
    (∀ v, start ≤ v → v < start + k → probeOk meta base v = true) →
    probeOk meta base (start + k) = false →
    scanVersions meta base fuel start = consecFrom start k := by
  intro k
  induction k with
  | zero =>
    intro fuel start hf hok hfail
    rcases fuel with _ | f
    · omega
    · have h0 : probeOk meta base start = false := by simpa using hfail
      simp [scanVersions, h0, consecFrom]
  | succ k ih =>
    intro fuel start hf hok hfail
    rcases fuel with _ | f
    · omega
    · have h1 : probeOk meta base start = true := by
        exact hok start (Nat.le_refl start) (by omega)
      have ihr : scanVersions meta base f (start + 1) = consecFrom (start + 1) k := by
        apply ih f (start + 1) (by omega)
        · intro v hv1 hv2
          exact hok v (by omega) (by omega)
        · have : start + 1 + k = start + (k + 1) := by omega
          rw [this]
          exact hfail
      simp [scanVersions, h1, ihr, consecFrom]

/-- C4: `list_all_versions` returns exactly `[1]` in `v1_only` mode; in the
general mode, when versions `1..n` resolve and version `n+1`'s probe fails,
it returns exactly the consecutive prefix `[1, …, n]`, defaulting to `[1]`
when even the version-1 probe fails (`n = 0`). -/
theorem C4_list_all_versions (meta : String → Except Unit ArxivResult)
    (base : String) (fuel n : Nat) (hfuel : n < fuel)
    (hok : ∀ v, 1 ≤ v → v ≤ n → probeOk meta base v = true)
    (hfail : probeOk meta base (n + 1) = false) :
    list_all_versions meta fuel base true = [1] ∧
    list_all_versions meta fuel base false =
      (if n = 0 then [1] else consecFrom 1 n) := by
  constructor
  · simp [list_all_versions]
  · have hscan : scanVersions meta base fuel 1 = consecFrom 1 n := by
      apply scanVersions_spec meta base n fuel 1 hfuel
      · intro v hv1 hv2
        exact hok v hv1 (by omega)
      · have : 1 + n = n + 1 := by omega
        rw [this]
        exact hfail
    rcases n with _ | m
    · simp [list_all_versions, hscan, consecFrom]
    · have hne : consecFrom 1 (m + 1) ≠ [] := by simp [consecFrom]
      simp [list_all_versions, hscan, hne]

/-- The metadata oracle of the spec's discovery scenario: versions 1 and 2
of `2101.00001` resolve, everything else raises. -/
def metaTwoVersions : String → Except Unit ArxivResult := fun s =>
  if s = "2101.00001v1" then .ok ⟨none⟩
  else if s = "2101.00001v2" then .ok ⟨none⟩
  else .error ()

/-- Witness for C4: with versions 1 and 2 resolving and version 3's probe
failing, discovery returns exactly `[1, 2]` (and `[1]` in `v1_only` mode). -/
theorem C4_witness :
    list_all_versions metaTwoVersions 4 "2101.00001" true = [1] ∧
    list_all_versions metaTwoVersions 4 "2101.00001" false =
      (if 2 = 0 then [1] else consecFrom 1 2) :=
  C4_list_all_versions metaTwoVersions "2101.00001" 4 2 (by decide)
    (by
      intro v h1 h2
      interval_cases v
      · decide
      · decide)
    (by decide)

/-! ### Archive extraction (`arxiv_tools.extract_tex_bib`, lines 285-317)

The tar library is external; an archive is modelled as the member list that
`tarfile.open(...).getmembers()` yields, with `none` standing for a
`tarfile.ReadError` (the file cannot be opened as a tar at all). -/

/-- One tar member as the extractor sees it. -/
structure TarMember where
  name : String
  isfile : Bool
  content : List Nat

/-- `os.path.basename`: everything after the last `/`. -/
def basenameChars (s : List Char) : List Char :=
  (s.reverse.takeWhile (fun c => c ≠ '/')).reverse

/-- `os.path.basename(m.name).replace("\x00", "")`. -/
def sanitizeBase (s : String) : String :=
  ((basenameChars s.toList).filter (fun c => c ≠ Char.ofNat 0)).asString

/-- `os.path.splitext` on a basename: the extension starting at the last
dot, provided some character strictly before that dot is not itself a dot
(so `.bashrc`-style names have no extension); `[]` when there is none. -/
def extOf (s : List Char) : List Char :=
  let rev := s.reverse
  let after := rev.takeWhile (fun c => c ≠ '.')
  match rev.dropWhile (fun c => c ≠ '.') with
  | [] => []
  | _ :: rest => if rest.any (fun c => c ≠ '.') then '.' :: after.reverse else []

/-- `ext = ext.lower() if ext else "<no_ext>"` applied to a sanitized
basename. -/
def extKeyStr (b : String) : String :=
  let e := extOf b.toList
  if e = [] then "<no_ext>" else (e.map Char.toLower).asString

/-- The per-extension counting dictionary update (`ext_counts[ext] =
ext_counts.get(ext, 0) + 1`), insertion-ordered like a Python dict. -/
def bumpCount : List (String × Nat) → String → List (String × Nat)
  | [], k => [(k, 1)]
  | (k', n) :: rest, k =>
    if k' = k then (k', n + 1) :: rest else (k', n) :: bumpCount rest k

/-- Writing `out_dir/base`: overwrite in place if present, append if new. -/
def writeOut : List (String × List Nat) → String → List Nat → List (String × List Nat)
  | [], k, v => [(k, v)]
  | (k', v') :: rest, k, v =>
    if k' = k then (k', v) :: rest else (k', v') :: writeOut rest k v

def countOf : List (String × Nat) → String → Nat
  | [], _ => 0
  | (k', n) :: rest, k => if k' = k then n else countOf rest k

def lookupOut : List (String × List Nat) → String → Option (List Nat)
  | [], _ => none
  | (k', v) :: rest, k => if k' = k then some v else lookupOut rest k

/-- The extractor's running state: `total_files`, `ext_counts`, and the
contents of `out_dir`. -/
structure ExtractState where
  total : Nat
  counts : List (String × Nat)
  out : List (String × List Nat)
deriving DecidableEq

/-- One iteration of the member loop in `extract_tex_bib`: skip non-regular
members and members whose sanitized basename is empty; otherwise count the
member under its lowercased extension and, when that extension is `.tex` or
`.bib`, stream-copy it to `out_dir` under its basename. -/
def extractStep (st : ExtractState) (m : TarMember) : ExtractState :=
  if m.isfile then
    let base := sanitizeBase m.name
    if base = "" then st
    else
      let key := extKeyStr base
      { total := st.total + 1
        counts := bumpCount st.counts key
        out := if key = ".tex" ∨ key = ".bib" then writeOut st.out base m.content
               else st.out }
  else st

/-- `arxiv_tools.extract_tex_bib`: raise `ValueError` when the archive
cannot be opened as tar (`tarfile.ReadError`, modelled `none`); otherwise
fold the member loop and return the statistics and the output directory. -/
def extract_tex_bib (arch : Option (List TarMember)) : Except String ExtractState :=
  match arch with
  | none => Except.error "Downloaded file is not a valid tar archive"
  | some ms => Except.ok (ms.foldl extractStep ⟨0, [], []⟩)

/-- A member that is counted: a regular file with nonempty sanitized
basename. -/
def goodMember (m : TarMember) : Bool :=
  m.isfile && !(sanitizeBase m.name == "")

/-- A counted member whose lowercased extension is source-text. -/
def texBibMember (m : TarMember) : Bool :=
  goodMember m && (extKeyStr (sanitizeBase m.name) == ".tex"
    || extKeyStr (sanitizeBase m.name) == ".bib")

lemma countOf_bump_same (l : List (String × Nat)) (k : String) :
    countOf (bumpCount l k) k = countOf l k + 1 := by
  induction l with
  | nil => simp [bumpCount, countOf]
  | cons p rest ih =>
    rcases p with ⟨k', n⟩
    by_cases h : k' = k
    · subst h; simp [bumpCount, countOf]
    · simp [bumpCount, countOf, h, ih]

lemma countOf_bump_other (l : List (String × Nat)) (k₀ k : String) (h : k₀ ≠ k) :
    countOf (bumpCount l k₀) k = countOf l k := by
  induction l with
  | nil => simp [bumpCount, countOf, h]
  | cons p rest ih =>
    rcases p with ⟨k', n⟩
    by_cases h' : k' = k₀
    · subst h'; simp [bumpCount, countOf, h]
    · simp [bumpCount, countOf, h', ih]

lemma lookupOut_writeOut (l : List (String × List Nat)) (k q : String) (v : List Nat) :
    (lookupOut (writeOut l k v) q).isSome
      = (if q = k then true else (lookupOut l q).isSome) := by
  induction l with
  | nil =>
    by_cases h : q = k
    · subst h; simp [writeOut, lookupOut]
    · simp [writeOut, lookupOut, h, Ne.symm h]
  | cons p rest ih =>
    rcases p with ⟨k', v'⟩
    by_cases h' : k' = k
    · subst h'
      by_cases hq : k' = q
      · subst hq; simp [writeOut, lookupOut]
      · simp [writeOut, lookupOut, hq, Ne.symm hq]
    · by_cases hq : k' = q
      · subst hq; simp [writeOut, lookupOut, h']
      · simp [writeOut, lookupOut, h', hq, ih]

lemma foldl_extract_total (ms : List TarMember) :
    ∀ st : ExtractState,
      (ms.foldl extractStep st).total = st.total + ms.countP goodMember := by
  induction ms with
  | nil => intro st; simp
  | cons m rest ih =>
    intro st
    rw [List.foldl_cons, List.countP_cons, ih]
    rcases hm : m.isfile
    · have hg : goodMember m = false := by simp [goodMember, hm]
      simp [extractStep, hm, hg]
    · by_cases hb : sanitizeBase m.name = ""
      · have hg : goodMember m = false := by simp [goodMember, hm, hb]
        simp [extractStep, hm, hb, hg]
      · have hg : goodMember m = true := by simp [goodMember, hm, hb]
        simp [extractStep, hm, hb, hg]
        omega

lemma foldl_extract_counts (k : String) (ms : List TarMember) :
    ∀ st : ExtractState,
      countOf ((ms.foldl extractStep st).counts) k
        = countOf st.counts k
          + ms.countP (fun m => goodMember m && (extKeyStr (sanitizeBase m.name) == k)) := by
  induction ms with
  | nil => intro st; simp
  | cons m rest ih =>
    intro st
    rw [List.foldl_cons, List.countP_cons, ih]
    rcases hm : m.isfile
    · have hg : goodMember m = false := by simp [goodMember, hm]
      simp [extractStep, hm, hg]
    · by_cases hb : sanitizeBase m.name = ""
      · have hg : goodMember m = false := by simp [goodMember, hm, hb]
        simp [extractStep, hm, hb, hg]
      · have hg : goodMember m = true := by simp [goodMember, hm, hb]
        by_cases hk : extKeyStr (sanitizeBase m.name) = k
        · simp [extractStep, hm, hb, hg, hk, countOf_bump_same]
          omega
        · simp [extractStep, hm, hb, hg, hk, countOf_bump_other _ _ _ hk]

lemma foldl_extract_out (q : String) (ms : List TarMember) :
    ∀ st : ExtractState,
      (lookupOut ((ms.foldl extractStep st).out) q).isSome
        = ((lookupOut st.out q).isSome
            || ms.any (fun m => texBibMember m && (sanitizeBase m.name == q))) := by
  induction ms with
  | nil => intro st; simp
  | cons m rest ih =>
    intro st
    rw [List.foldl_cons, List.any_cons, ih]
    rcases hm : m.isfile
    · have ht : texBibMember m = false := by simp [texBibMember, goodMember, hm]
      simp [extractStep, hm, ht]
    · by_cases hb : sanitizeBase m.name = ""
      · have ht : texBibMember m = false := by simp [texBibMember, goodMember, hm, hb]
        simp [extractStep, hm, hb, ht]
      · by_cases hk : extKeyStr (sanitizeBase m.name) = ".tex"
              ∨ extKeyStr (sanitizeBase m.name) = ".bib"
        · have ht : texBibMember m = true := by
            rcases hk with hk | hk <;> simp [texBibMember, goodMember, hm, hb, hk]
          have hstep : (extractStep st m).out
              = writeOut st.out (sanitizeBase m.name) m.content := by
            simp [extractStep, hm, hb, hk]
          rw [hstep, lookupOut_writeOut]
          by_cases hq : q = sanitizeBase m.name
          · simp [hq, ht]
          · have hbq : (sanitizeBase m.name == q) = false := by
              simpa using Ne.symm hq
            simp [hq, hbq]
        · have h1 : extKeyStr (sanitizeBase m.name) ≠ ".tex" := fun he => hk (Or.inl he)
          have h2 : extKeyStr (sanitizeBase m.name) ≠ ".bib" := fun he => hk (Or.inr he)
          have ht : texBibMember m = false := by
            simp [texBibMember, goodMember, hm, hb, h1, h2]
          have hstep : (extractStep st m).out = st.out := by
            simp [extractStep, hm, hb, hk]
          rw [hstep]
          simp [ht]

/-- The spec's round-trip archive `{a.tex, b.bib, c.png, d}`. -/
def scenarioMembers : List TarMember :=
  [⟨"a.tex", true, [1]⟩, ⟨"b.bib", true, [2]⟩, ⟨"c.png", true, [3]⟩, ⟨"d", true, [4]⟩]

/-- C7: the extractor errors exactly when the archive cannot be opened at
all (an openable archive yielding zero files is not an error); on an
openable archive it counts every regular-file member with nonempty
sanitized basename (`total`), counts them by lowercased extension key, and
the output directory holds exactly the sanitized basenames of `.tex`/`.bib`
members; on the spec's `{a.tex, b.bib, c.png, d}` archive it reports 4
total with per-extension counts 1/1/1/1 and writes exactly `a.tex` and
`b.bib`. -/
theorem C7_extract_contract (arch : Option (List TarMember)) :
    (extract_tex_bib arch
        = Except.error "Downloaded file is not a valid tar archive" ↔ arch = none) ∧
    (∀ ms st, arch = some ms → extract_tex_bib arch = Except.ok st →
      st.total = ms.countP goodMember ∧
      (∀ k, countOf st.counts k
        = ms.countP (fun m => goodMember m && (extKeyStr (sanitizeBase m.name) == k))) ∧
      (∀ q, (lookupOut st.out q).isSome
        = ms.any (fun m => texBibMember m && (sanitizeBase m.name == q)))) ∧
    extract_tex_bib (some scenarioMembers)
      = Except.ok ⟨4, [(".tex", 1), (".bib", 1), (".png", 1), ("<no_ext>", 1)],
          [("a.tex", [1]), ("b.bib", [2])]⟩ := by
  refine ⟨?_, ?_, by rfl⟩
  · rcases arch with _ | ms <;> simp [extract_tex_bib]
  · intro ms st harch hok
    subst harch
    have hst : st = ms.foldl extractStep ⟨0, [], []⟩ := by
      simpa [extract_tex_bib] using hok.symm
    subst hst
    refine ⟨?_, ?_, ?_⟩
    · rw [foldl_extract_total]
      simp
    · intro k
      rw [foldl_extract_counts]
      simp [countOf]
    · intro q
      rw [foldl_extract_out]
      simp [lookupOut]

/-- Witness for C7: the `.tex` count reported for the spec's scenario
archive equals the number of its counted members with extension `.tex`. -/
theorem C7_witness :
    countOf (scenarioMembers.foldl extractStep ⟨0, [], []⟩).counts ".tex"
      = scenarioMembers.countP
          (fun m => goodMember m && (extKeyStr (sanitizeBase m.name) == ".tex")) :=
  (((C7_extract_contract (some scenarioMembers)).2.1 scenarioMembers
      (scenarioMembers.foldl extractStep ⟨0, [], []⟩) rfl rfl).2.1) ".tex"

/-- Two regular-file members in different archive subdirectories sharing
the sanitized basename `main.tex`. -/
def dupMembers : List TarMember :=
  [⟨"d1/main.tex", true, [10]⟩, ⟨"d2/main.tex", true, [20]⟩]

/-- C10: members with equal sanitized basenames are written to the same
output path, the last-enumerated one's content silently overwriting the
earlier one, while both are still counted in `total` and in the
per-extension counts. -/
theorem C10_duplicate_basenames_overwrite :
    sanitizeBase "d1/main.tex" = sanitizeBase "d2/main.tex" ∧
    extract_tex_bib (some dupMembers)
      = Except.ok ⟨2, [(".tex", 2)], [("main.tex", [20])]⟩ := by
  exact ⟨by decide, by rfl⟩

/-! ### The Paper Pipeline and the Crawl Driver

`pipeline.process_one_paper` (src/Lab01/src/scrap/pipeline.py lines 84-136)
and `main.main` (src/Lab01/src/main.py lines 50-94).  The pipeline's
collaborators are oracles: `list_all_versions` and `try_download_source`
never raise (they catch internally, as proved above), `extract_tex_bib` may
raise the `ValueError` that the pipeline catches, `build_metadata` may
raise (its `get_result_by_id` calls are NOT wrapped in the pipeline), and
the references path may raise (wrapped).  The driver submits every paper to
the `ThreadPoolExecutor` up front, so all papers execute even if the
collection loop dies; the `as_completed` loop then calls `fut.result()`
with no try/except, re-raising the first stored per-paper exception. -/

/-- The pipeline's collaborators, as oracles keyed by identifier. -/
structure PipeWorld where
  listVersions : String → Bool → List Nat
  download : String → Bool
  extractRes : String → Except Unit Unit
  buildMeta : String → Except Unit Unit
  getRefs : String → Except Unit Unit

/-- The on-disk state of one paper's directory: the `_tmp` staging
directory (`none` = removed, `some files` = present with those files), the
per-version `tex/` subdirectories, and the two JSON outputs. -/
structure PaperFS where
  tmpFiles : Option (List String)
  texVersions : List Nat
  metaWritten : Bool
  refsWritten : Bool
deriving DecidableEq

/-- `f"{to_yymm_id(base_id)}v{v}.tar.gz"`. -/
def tgzName (base : String) (v : Nat) : String :=
  to_yymm_id base ++ "v" ++ toString v ++ ".tar.gz"

def addTmpFile (fs : PaperFS) (f : String) : PaperFS :=
  { fs with tmpFiles := some ((fs.tmpFiles.getD []) ++ [f]) }

/-- One iteration of the per-version loop: a failed download is skipped; a
successful download leaves the archive in `_tmp` and is extracted, with a
`ValueError` from extraction caught (leaving the archive in `_tmp`). -/
def versionStep (w : PipeWorld) (base : String) (st : PaperFS × Bool) (v : Nat) :
    PaperFS × Bool :=
  if w.download (verId base v) then
    let fs1 := addTmpFile st.1 (tgzName base v)
    match w.extractRes (verId base v) with
    | .ok _ => ({ fs1 with texVersions := fs1.texVersions ++ [v] }, true)
    | .error _ => (fs1, st.2)
  else st

/-- `pipeline.process_one_paper`: create the paper/tex/_tmp directories,
loop over discovered versions (failures contained per version), then build
metadata — an exception there propagates, skipping everything after it —
then write `references.json` on every branch (skip flag, success, or caught
failure), then best-effort-remove the `_tmp` directory.  Returns the final
on-disk state and the outcome (`error` = the exception stored in the
paper's future). -/
def process_one_paper (w : PipeWorld) (base : String) (v1_only skip_ref : Bool) :
    PaperFS × Except Unit Bool :=
  let fs0 : PaperFS := ⟨some [], [], false, false⟩
  let versions := w.listVersions base v1_only
  let r := versions.foldl (versionStep w base) (fs0, false)
  match w.buildMeta base with
  | .error e => (r.1, .error e)
  | .ok _ =>
    let fs2 := { r.1 with metaWritten := true }
    let fs3 :=
      if skip_ref then { fs2 with refsWritten := true }
      else
        match w.getRefs base with
        | .ok _ => { fs2 with refsWritten := true }
        | .error _ => { fs2 with refsWritten := true }
    ({ fs3 with tmpFiles := none }, .ok r.2)

/-- All submitted papers run to completion on the worker pool (the driver
submits every future before collecting any). -/
def runPapers (w : PipeWorld) (ids : List String) (v1_only skip_ref : Bool) :
    List (PaperFS × Except Unit Bool) :=
  ids.map (fun id => process_one_paper w id v1_only skip_ref)

/-- The driver's collection loop: `fut.result()` with no try/except, so the
first stored per-paper exception is re-raised to the top level. -/
def collectResults : List (PaperFS × Except Unit Bool) → Except Unit (List Bool)
  | [] => .ok []
  | r :: rest =>
    match r.2 with
    | .error e => .error e
    | .ok b =>
      match collectResults rest with
      | .error e => .error e
      | .ok bs => .ok (b :: bs)

/-- `main.main`'s crawl (renamed: Lean reserves `main`): run every paper,
then collect the results. -/
def crawl_main (w : PipeWorld) (ids : List String) (v1_only skip_ref : Bool) :
    Except Unit (List Bool) :=
  collectResults (runPapers w ids v1_only skip_ref)

def exceptOk {ε α : Type} : Except ε α → Bool
  | .ok _ => true
  | .error _ => false

/-- A crawl world where every download and extraction succeeds but paper
`b`'s primary metadata resolution raises. -/
def wPipeBad : PipeWorld :=
  ⟨fun _ _ => [1], fun _ => true, fun _ => .ok (),
   fun id => if id = "b" then .error () else .ok (), fun _ => .ok ()⟩

/-- A crawl world where every download and every reference resolution
fails, but metadata resolution always succeeds. -/
def wPipeGood : PipeWorld :=
  ⟨fun _ _ => [1], fun _ => false, fun _ => .error (),
   fun _ => .ok (), fun _ => .error ()⟩

/-- C2 counterexample: in a crawl over `["a", "b", "c"]` where paper `b`'s
primary metadata resolution raises, the Crawl Driver's bare `fut.result()`
re-raises that paper's error at the top level — the crawl terminates with
the error instead of reporting a summary. -/
theorem C2_counterexample :
    crawl_main wPipeBad ["a", "b", "c"] false false = Except.error () := by rfl

/-- C2 amended: failures in version download/extraction and in reference
resolution are contained — a paper whose primary metadata resolution
succeeds always completes with a normal outcome — and a crawl in which no
paper's metadata resolution raises finishes without re-raising anything;
but (per the counterexample) an error raised by one paper's primary
metadata resolution is stored in its future and re-raised by the driver's
collection loop.  All submitted papers still execute (`runPapers` runs the
pipeline on every identifier before collection). -/
theorem C2_paper_failure_containment (w : PipeWorld) (ids : List String)
    (v1_only skip_ref : Bool) :
    (∀ base, exceptOk (w.buildMeta base) = true →
      exceptOk (process_one_paper w base v1_only skip_ref).2 = true) ∧
    ((∀ id ∈ ids, exceptOk (w.buildMeta id) = true) →
      exceptOk (crawl_main w ids v1_only skip_ref) = true) := by
  have hone : ∀ base, exceptOk (w.buildMeta base) = true →
      exceptOk (process_one_paper w base v1_only skip_ref).2 = true := by
    intro base h
    unfold process_one_paper
    rcases hb : w.buildMeta base with e | u
    · rw [hb] at h; simp [exceptOk] at h
    · simp only [hb]
      rcases skip_ref
      · rcases hr : w.getRefs base with e | u <;> simp [hr, exceptOk]
      · simp [exceptOk]
  refine ⟨hone, ?_⟩
  intro hall
  induction ids with
  | nil => simp [crawl_main, runPapers, collectResults, exceptOk]
  | cons id rest ih =>
    have h1 : exceptOk (process_one_paper w id v1_only skip_ref).2 = true :=
      hone id (hall id (List.mem_cons_self id rest))
    have h2 : exceptOk (crawl_main w rest v1_only skip_ref) = true :=
      ih (fun i hi => hall i (List.mem_cons_of_mem id hi))
    rcases hp : (process_one_paper w id v1_only skip_ref).2 with e | b
    · rw [hp] at h1; simp [exceptOk] at h1
    · rcases hc : collectResults (runPapers w rest v1_only skip_ref) with e | bs
      · rw [crawl_main, hc] at h2; simp [exceptOk] at h2
      · have hc' : collectResults
            (List.map (fun i => process_one_paper w i v1_only skip_ref) rest)
            = Except.ok bs := by simpa [runPapers] using hc
        simp [crawl_main, runPapers, collectResults, hp, hc', exceptOk]

/-- Witness for C2's amended theorem: a concrete crawl in which every
download and reference resolution fails but all metadata resolutions
succeed completes without a top-level error. -/
theorem C2_witness :
    exceptOk (crawl_main wPipeGood ["a", "b"] false false) = true :=
  (C2_paper_failure_containment wPipeGood ["a", "b"] false false).2 (by decide)

lemma versionFold_tmp_isSome (w : PipeWorld) (base : String) (vs : List Nat) :
    ∀ st : PaperFS × Bool, st.1.tmpFiles.isSome = true →
      ((vs.foldl (versionStep w base) st).1.tmpFiles).isSome = true := by
  induction vs with
  | nil => intro st h; simpa using h
  | cons v rest ih =>
    intro st h
    rw [List.foldl_cons]
    apply ih
    unfold versionStep
    rcases hd : w.download (verId base v)
    · simpa [hd] using h
    · rcases he : w.extractRes (verId base v) with e | u <;>
        simp [hd, he, addTmpFile]

/-- C8 counterexample: when paper `b`'s primary metadata resolution raises,
`process_one_paper` exits before its cleanup block — the `_tmp` staging
directory is NOT removed and still holds the downloaded archive. -/
theorem C8_counterexample :
    (process_one_paper wPipeBad "b" false false).1.tmpFiles
        = some [tgzName "b" 1] ∧
    (process_one_paper wPipeBad "b" false false).1.tmpFiles ≠ none ∧
    (process_one_paper wPipeBad "b" false false).2 = Except.error () := by
  refine ⟨by rfl, by decide, by rfl⟩

/-- C8 amended: the `_tmp` staging directory is removed by the end of the
pipeline run exactly when the paper's primary metadata resolution does not
raise; per-version download/extract failures and reference failures never
prevent the cleanup, but a metadata-resolution error aborts the pipeline
before the cleanup block, leaving the staging directory (and its archives)
behind. -/
theorem C8_tmp_removed_iff_metadata_ok (w : PipeWorld) (base : String)
    (v1_only skip_ref : Bool) :
    (process_one_paper w base v1_only skip_ref).1.tmpFiles = none
      ↔ exceptOk (w.buildMeta base) = true := by
  unfold process_one_paper
  rcases hb : w.buildMeta base with e | u
  · simp only [hb]
    constructor
    · intro h
      exfalso
      have hs := versionFold_tmp_isSome w base (w.listVersions base v1_only)
        (⟨some [], [], false, false⟩, false) (by simp)
      rw [h] at hs
      simp at hs
    · intro h; simp [exceptOk] at h
  · simp only [hb]
    simp [exceptOk]

/-- Witness for C8's amended theorem: in a concrete world whose metadata
resolution succeeds, the staging directory is removed. -/
theorem C8_witness :
    (process_one_paper wPipeGood "a" false false).1.tmpFiles = none :=
  (C8_tmp_removed_iff_metadata_ok wPipeGood "a" false false).mpr (by decide)
